import Mathlib

/-!
Verification of the core logic of `sdr_gui.py` (tetra-decode).

The Python source is shallowly embedded: analog quantities (frequencies,
powers, audio gain, timestamps) that the program stores as Python/NumPy
floats are modelled as exact rationals `ℚ`; 16-bit PCM samples are modelled
as `ℤ` with explicit wrap-around where NumPy int16 overflow matters;
fallible parsing returns `Option`.  Threaded components are modelled by
explicit state records plus pure transition functions that also return the
list of externally visible actions/events they perform, in order.
-/

namespace SdrGui

/-! ## Character-level helpers shared by the parsers

Python's `str.strip`, `str.split(',')` and `float(...)` are modelled on
`List Char` so that everything reduces by `rfl`/`decide`. -/

/-- Value of a list of decimal digit characters, most significant first. -/
def digitsVal (ds : List Char) : Nat :=
  ds.foldl (fun a c => a * 10 + (c.toNat - 48)) 0

/-- Strips leading and trailing whitespace; models Python `str.strip()`. -/
def trimChars (cs : List Char) : List Char :=
  ((cs.dropWhile Char.isWhitespace).reverse.dropWhile Char.isWhitespace).reverse

/-- Splits a character list on commas; models Python `str.split(',')`
(empty input yields one empty field, separators are not merged). -/
def splitComma : List Char → List (List Char)
  | [] => [[]]
  | c :: rest =>
    if c = ',' then [] :: splitComma rest
    else
      match splitComma rest with
      | g :: gs => (c :: g) :: gs
      | [] => [[c]]

/-- Consumes an optional leading sign, returning the sign as `1` or `-1`. -/
def parseSign : List Char → Int × List Char
  | '+' :: cs => (1, cs)
  | '-' :: cs => (-1, cs)
  | cs => (1, cs)

/-- Parses the finite-decimal fragment of Python `float(...)`: optional
surrounding whitespace, optional sign, digits with an optional fractional
part (at least one digit overall) and an optional decimal exponent.  The
non-finite literals (`inf`, `nan`) that `float` also accepts have no
counterpart in `ℚ` and are not produced by the sweep tool. -/
def parseFloatChars (s : List Char) : Option ℚ :=
  let cs := trimChars s
  let (sg, cs1) := parseSign cs
  let ip := cs1.takeWhile Char.isDigit
  let cs2 := cs1.dropWhile Char.isDigit
  let (fp, cs3) :=
    match cs2 with
    | '.' :: rest => (rest.takeWhile Char.isDigit, rest.dropWhile Char.isDigit)
    | _ => ([], cs2)
  if ip.isEmpty && fp.isEmpty then none
  else
    let mant : ℚ := (sg * (digitsVal (ip ++ fp) : Int) : ℚ) / ((10 : ℚ) ^ fp.length)
    match cs3 with
    | [] => some mant
    | e :: rest =>
      if e = 'e' || e = 'E' then
        let (esg, r1) := parseSign rest
        let ed := r1.takeWhile Char.isDigit
        let r2 := r1.dropWhile Char.isDigit
        if ed.isEmpty || !r2.isEmpty then none
        else some (mant * (10 : ℚ) ^ (esg * (digitsVal ed : Int)))
      else none

/-! ## SDRScanner._scan: sweep CSV line parsing and peak emission

From `SDRScanner._scan` (src/sdr_gui.py lines 1040-1057): each line is
stripped and split on commas; lines with fewer than 6 fields are skipped;
`f0 = float(parts[2])`, `bin_hz = float(parts[4])`,
`powers = map(float, parts[6:])`, any `ValueError` skips the line;
`freqs = f0 + bin_hz * arange(len(powers))`; the frame is emitted, then
`frequency_selected` fires at `freqs[argmax(powers)]`. -/

/-- One reconstructed sweep frame: frequency and power arrays. -/
structure Frame where
  freqs : List ℚ
  powers : List ℚ
deriving Repr, DecidableEq

/-- Extracts the numeric fields of one split sweep line, exactly as
`SDRScanner._scan` does: fewer than 6 fields or any failing `float`
conversion at positions 2, 4 or 6.. yields `none` (line skipped). -/
def parseFields (parts : List (List Char)) : Option (ℚ × ℚ × List ℚ) :=
  if parts.length < 6 then none
  else
    match parseFloatChars (parts.getD 2 []), parseFloatChars (parts.getD 4 []),
        (parts.drop 6).mapM parseFloatChars with
    | some f0, some binHz, some powers => some (f0, binHz, powers)
    | _, _, _ => none

/-- Frequency reconstruction `f0 + bin_hz * np.arange(n)`. -/
def mkFreqs (f0 binHz : ℚ) (n : Nat) : List ℚ :=
  (List.range n).map (fun (i : Nat) => f0 + binHz * (i : ℚ))

/-- Builds the emitted frame from the parsed fields. -/
def mkFrame (f0 binHz : ℚ) (powers : List ℚ) : Frame :=
  ⟨mkFreqs f0 binHz powers.length, powers⟩

/-- Full per-line frame parse: strip, split on commas, extract fields. -/
def parseSweepLine (line : List Char) : Option Frame :=
  match parseFields (splitComma (trimChars line)) with
  | some (f0, binHz, powers) => some (mkFrame f0 binHz powers)
  | none => none

/-- Index of the first maximum, accumulator form (models `np.argmax`). -/
def argmaxAux : List ℚ → Nat → ℚ → Nat → Nat
  | [], bi, _, _ => bi
  | p :: rest, bi, bv, i =>
    if bv < p then argmaxAux rest i p (i + 1) else argmaxAux rest bi bv (i + 1)

/-- Model of `np.argmax`: index of the first maximal element
(`np.argmax` raises on an empty array; that case is handled by the
caller model `processLine`). -/
def argmaxIdx : List ℚ → Nat
  | [] => 0
  | p :: rest => argmaxAux rest 0 p 1

/-- Events the scanner worker emits per line. -/
inductive ScanEvent where
  | spectrumReady (freqs powers : List ℚ)
  | frequencySelected (f : ℚ)
deriving Repr, DecidableEq

/-- Number of `frequencySelected` events in an event list. -/
def countFreqSelected (evs : List ScanEvent) : Nat :=
  (evs.filter fun e =>
    match e with
    | .frequencySelected _ => true
    | _ => false).length

/-- Processes one sweep-tool output line: malformed lines produce no event;
a parsed frame is emitted, then the peak.  `np.argmax` on an empty power
array raises `ValueError`, which escapes the per-line `try` and kills the
scan loop: this is modelled by the `Bool` crash flag (emission of the
spectrum event precedes the crash, as in the source). -/
def processLine (line : List Char) : List ScanEvent × Bool :=
  match parseSweepLine line with
  | none => ([], false)
  | some fr =>
    if fr.powers.isEmpty then
      ([.spectrumReady fr.freqs fr.powers], true)
    else
      ([.spectrumReady fr.freqs fr.powers,
        .frequencySelected (fr.freqs.getD (argmaxIdx fr.powers) 0)], false)

/-- Processes successive lines of the sweep tool; a crash (escaped
exception) ends the loop, a merely malformed line does not. -/
def processLines : List (List Char) → List ScanEvent
  | [] => []
  | l :: rest =>
    let r := processLine l
    if r.2 then r.1 else r.1 ++ processLines rest

/-! ## AudioPlayer._play: per-chunk AGC (src/sdr_gui.py lines 1130-1152)

`audio = np.frombuffer(data, np.int16); level = np.max(np.abs(audio));
if level > 0: audio = (audio * (agc_level / level)).astype(np.int16)`.
Samples are `ℤ` constrained to the int16 range by the chunk decoding;
`np.abs` on int16 wraps, so `abs(-32768) = -32768`, which is modelled
exactly.  Scaling happens in float (modelled as `ℚ`); `.astype(np.int16)`
truncates toward zero and wraps out-of-range values modulo 2^16. -/

/-- NumPy int16 absolute value: wraps on the minimal value. -/
def npAbs16 (s : ℤ) : ℤ := if s = -32768 then -32768 else |s|

/-- Left fold of `max` with an initial value (the running NumPy max). -/
def listMaxD (l : List ℤ) (d : ℤ) : ℤ := l.foldl max d

/-- Model of `np.max(np.abs(audio))` on int16 data.  `np.max` of an empty
array raises; the chunk read in `_play` is nonempty, so the `[]` case is
unreachable and modelled as 0. -/
def npMaxAbs16 : List ℤ → ℤ
  | [] => 0
  | s :: rest => listMaxD (rest.map npAbs16) (npAbs16 s)

/-- True absolute peak of a chunk (used to state the claims). -/
def maxAbs (audio : List ℤ) : ℤ := listMaxD (audio.map (fun s => |s|)) 0

/-- Truncation toward zero, as C/NumPy float-to-int conversion does. -/
def truncQ (q : ℚ) : ℤ := if 0 ≤ q then ⌊q⌋ else ⌈q⌉

/-- Reduction of an integer into the int16 range by wrap-around. -/
def wrap16 (n : ℤ) : ℤ := (n + 32768) % 65536 - 32768

/-- Model of `.astype(np.int16)` applied to one float value. -/
def toInt16 (q : ℚ) : ℤ := wrap16 (truncQ q)

/-- The AGC body of `AudioPlayer._play`: if the (int16, wrapping) peak is
positive, each sample is scaled by `agc_level / level` and converted back
to int16; otherwise the chunk passes through unchanged. -/
def agcChunk (agcLevel : ℤ) (audio : List ℤ) : List ℤ :=
  let level := npMaxAbs16 audio
  if 0 < level then
    audio.map (fun (s : ℤ) => toInt16 ((s : ℚ) * ((agcLevel : ℚ) / (level : ℚ))))
  else audio

/-- The 2048-byte all-minimal chunk (1024 samples of -32768) used to
refute the stated AGC claim. -/
def c3Chunk : List ℤ := List.replicate 1024 (-32768)

/-! ## AudioPlayer recording sessions (src/sdr_gui.py lines 1154-1172)

`_start_recording` (called on every chunk whose post-AGC peak exceeds the
activity threshold) refreshes `record_last` if a file is open, else opens
a file whose name embeds the current timestamp; `_write_recording`
(called on every chunk) appends and closes the file once
`time.time() - record_last > 2`.  The timestamped filename is modelled by
the opening time itself; wall-clock time is the `ℚ` event timestamp. -/

/-- Recording state: the open session (tagged by its opening timestamp,
which names the file) and the last-activity timestamp. -/
structure RecState where
  recordFile : Option ℚ
  recordLast : ℚ
deriving Repr, DecidableEq

/-- `AudioPlayer._start_recording` at time `t`. -/
def startRecording (s : RecState) (t : ℚ) : RecState :=
  match s.recordFile with
  | some _ => { s with recordLast := t }
  | none => { recordFile := some t, recordLast := t }

/-- `AudioPlayer._write_recording` at time `t` (append, then close the
session if more than 2 s have passed since the last activity refresh). -/
def writeRecording (s : RecState) (t : ℚ) : RecState :=
  match s.recordFile with
  | some _ => if 2 < t - s.recordLast then { s with recordFile := none } else s
  | none => s

/-- One chunk of the `_play` loop at time `t`: `_start_recording` runs
exactly when the chunk shows activity, `_write_recording` runs always. -/
def processChunk (s : RecState) (t : ℚ) (activity : Bool) : RecState :=
  writeRecording (if activity then startRecording s t else s) t

/-- Folds a timed chunk sequence through the recording state. -/
def processChunks (s : RecState) : List (ℚ × Bool) → RecState
  | [] => s
  | (t, a) :: rest => processChunks (processChunk s t a) rest

/-- Holds when every chunk of the sequence arrives within the 2-second
silence timeout of the running last-activity timestamp. -/
def burstOk (s : RecState) : List (ℚ × Bool) → Bool
  | [] => true
  | (t, a) :: rest =>
    decide (t - s.recordLast ≤ 2) && burstOk (processChunk s t a) rest

/-! ## SDRScanner start/stop (src/sdr_gui.py lines 1001-1018)

`start` returns immediately if the worker thread object exists and is
alive, else sets the running event and spawns the worker; `stop` clears
the running event, terminates the process if the handle is set, and joins
the thread (timeout 1 s) if the thread object is set, clearing both. -/

/-- Scanner control state: the worker-thread handle (`none` = no object,
`some alive`), the running event, and the process handle. -/
structure ScannerState where
  thread : Option Bool
  running : Bool
  hasProcess : Bool
deriving Repr, DecidableEq

/-- External actions `SDRScanner.start`/`stop` can perform. -/
inductive ScanAction where
  | spawnThread
  | terminateProcess
  | joinThread
deriving Repr, DecidableEq

/-- `SDRScanner.start`: no-op while the worker is alive. -/
def scannerStart (s : ScannerState) : ScannerState × List ScanAction :=
  match s.thread with
  | some true => (s, [])
  | _ => ({ s with running := true, thread := some true }, [.spawnThread])

/-- `SDRScanner.stop`: clear the running event, terminate a live process,
join and drop the worker thread. -/
def scannerStop (s : ScannerState) : ScannerState × List ScanAction :=
  let s1 : ScannerState := { s with running := false }
  let pr : ScannerState × List ScanAction :=
    if s1.hasProcess then ({ s1 with hasProcess := false }, [.terminateProcess])
    else (s1, [])
  match pr.1.thread with
  | none => (pr.1, pr.2)
  | some _ => ({ pr.1 with thread := none }, pr.2 ++ [.joinThread])

/-! ## Frequency selection (MainWindow, src/sdr_gui.py lines 1839-1884)

`update_frequency` is the slot connected to the scanner's
`frequency_selected` signal; `manual_lock` is toggled by
`_set_manual_lock`; `_set_frequency_and_process` updates the label,
history and `current_frequency`, starts the rtl_fm audio player, and
starts decoding when the auto-decode checkbox is ticked. -/

/-- State of the frequency-selection logic of `MainWindow`. -/
structure SelectorState where
  manualLock : Bool
  currentFrequency : Option ℚ
  freqHistory : List ℚ
  autoDecode : Bool
deriving Repr, DecidableEq

/-- Externally visible actions of the frequency-selection slots. -/
inductive UiAction where
  | logLine (msg : String)
  | playerStart (f : ℚ)
  | decoderStart (f : ℚ)
deriving Repr, DecidableEq

/-- True for actions that start the audio player or the decoder. -/
def isStartAction : UiAction → Bool
  | .playerStart _ => true
  | .decoderStart _ => true
  | .logLine _ => false

/-- `MainWindow._set_frequency_and_process`: log, push history, set the
current frequency, start the audio player, and start decoding when
auto-decode is checked. -/
def setFrequencyAndProcess (s : SelectorState) (f : ℚ) (manualSource : Bool) :
    SelectorState × List UiAction :=
  ({ s with freqHistory := f / 1000000 :: s.freqHistory,
            currentFrequency := some f },
   [UiAction.logLine (if manualSource then "Manuell ausgewaehlt"
       else "Gewaehlte Frequenz"),
    UiAction.playerStart f]
     ++ (if s.autoDecode then [UiAction.decoderStart f] else []))

/-- `MainWindow.update_frequency`: under manual lock the scan peak is
only logged and recorded in the history; otherwise it is applied. -/
def updateFrequency (s : SelectorState) (f : ℚ) : SelectorState × List UiAction :=
  if s.manualLock then
    ({ s with freqHistory := f / 1000000 :: s.freqHistory },
     [UiAction.logLine "Automatische Frequenz ignoriert (Manuell aktiv)"])
  else setFrequencyAndProcess s f false

/-- `MainWindow._set_manual_lock`: sets the flag and logs the mode. -/
def setManualLock (s : SelectorState) (enabled : Bool) :
    SelectorState × List UiAction :=
  ({ s with manualLock := enabled }, [UiAction.logLine "Modus gewechselt"])

/-- Delivers a sequence of scanner peak events, collecting all actions. -/
def deliverPeaks (s : SelectorState) : List ℚ → SelectorState × List UiAction
  | [] => (s, [])
  | f :: rest =>
    let r1 := updateFrequency s f
    let r2 := deliverPeaks r1.1 rest
    (r2.1, r1.2 ++ r2.2)

/-! ## TetraDecoder (src/sdr_gui.py lines 1236-1434)

`_run` always allocates the audio side channel first (a named pipe when
`os.mkfifo` exists, else a temporary file), then checks with
`shutil.which` that `receiver1`, `demod_float` and `tetra-rx` all exist;
on the first missing one it emits a diagnostic, emits `finished` and
returns; otherwise it spawns the three stages in order and consumes
stage-3 stdout.  The `finally` block always terminates the stages, joins
the audio thread, deletes the audio path (errors swallowed, path reset)
and emits `finished` again.  One sequential terminating run is modelled
as a pure trace; `stop` is modelled on an abstract mid-run state. -/

/-- The two audio side-channel variants. -/
inductive AudioMode where
  | fifo
  | file
deriving Repr, DecidableEq

/-- Environment of one `TetraDecoder._run` invocation: which executables
`shutil.which` finds, whether the platform has `os.mkfifo`, which stage
spawn (if any) raises, the stage-3 stdout lines until EOF, and the names
the two channel variants would get. -/
structure RunEnv where
  whichOk : String → Bool
  hasMkfifo : Bool
  spawnFails : Fin 3 → Bool
  stage3Lines : List String
  fifoPath : String
  tmpPath : String

/-- Externally visible events of a decoder run. -/
inductive DecEvent where
  | outputLine (msg : String)
  | spawned (prog : String)
  | encryptedEmit
  | terminateAll
  | audioRemoved (path : String)
  | finishedEmit
deriving Repr, DecidableEq

/-- Decoder state relevant to cleanup claims. -/
structure DecState where
  running : Bool
  audioPath : Option String
  audioMode : Option AudioMode
deriving Repr, DecidableEq

/-- The first elements of the three stage argument vectors. -/
def stageProgs : List String := ["receiver1", "demod_float", "tetra-rx"]

/-- The audio-channel path `_run` allocates in the given environment. -/
def allocPath (env : RunEnv) : String :=
  if env.hasMkfifo then env.fifoPath else env.tmpPath

/-- True when a line contains the given pattern as a substring. -/
def strContains (s pat : String) : Bool :=
  s.toList.tails.any (fun t => pat.toList.isPrefixOf t)

/-- Events of the stage-3 stdout loop: each line is forwarded; lines
containing "CACH" or "LIP" additionally emit the encrypted signal. -/
def lineEvents (lines : List String) : List DecEvent :=
  (lines.map (fun l =>
    [DecEvent.outputLine l]
      ++ (if strContains l "CACH" || strContains l "LIP"
          then [DecEvent.encryptedEmit] else []))).flatten

/-- Number of `spawned` events in a trace. -/
def countSpawned (evs : List DecEvent) : Nat :=
  (evs.filter fun e =>
    match e with
    | .spawned _ => true
    | _ => false).length

/-- One terminating `TetraDecoder._run` invocation, as the final decoder
state and the ordered event trace.  Covers the missing-executable return,
an injected spawn exception, and the normal run to stage-3 EOF; the
`finally` block (terminate, join, remove audio path, emit finished) is
appended in every case. -/
def decoderRun (env : RunEnv) : DecState × List DecEvent :=
  let path := allocPath env
  let allocEvs := [DecEvent.outputLine ("Audioausgabe aktiviert, Pfad: " ++ path)]
  let finallyEvs := [DecEvent.terminateAll, DecEvent.audioRemoved path,
    DecEvent.finishedEmit]
  let fin : DecState := ⟨false, none, none⟩
  match stageProgs.find? (fun p => !(env.whichOk p)) with
  | some m =>
    (fin, allocEvs ++ [DecEvent.outputLine (m ++ " nicht im PATH gefunden"),
      DecEvent.finishedEmit] ++ finallyEvs)
  | none =>
    let bodyEvs :=
      if env.spawnFails 0 then
        [DecEvent.outputLine "Decoder konnte nicht gestartet werden"]
      else if env.spawnFails 1 then
        [DecEvent.spawned "receiver1",
         DecEvent.outputLine "Decoder konnte nicht gestartet werden"]
      else if env.spawnFails 2 then
        [DecEvent.spawned "receiver1", DecEvent.spawned "demod_float",
         DecEvent.outputLine "Decoder konnte nicht gestartet werden"]
      else
        [DecEvent.spawned "receiver1", DecEvent.spawned "demod_float",
         DecEvent.spawned "tetra-rx"] ++ lineEvents env.stage3Lines
    (fin, allocEvs ++ bodyEvs ++ finallyEvs)

/-- `TetraDecoder.stop` from an arbitrary mid-run state: clears the
running event, terminates the children, joins the workers, and removes
the audio path if one is set, resetting it. -/
def decoderStop (s : DecState) : DecState × List DecEvent :=
  (⟨false, none, none⟩,
   [DecEvent.terminateAll]
     ++ (match s.audioPath with
         | some p => [DecEvent.audioRemoved p]
         | none => []))

/-- The environment used to refute the stated allocation ordering of C4:
no executable is found, the platform has named pipes. -/
def c4Env : RunEnv :=
  ⟨fun _ => false, true, fun _ => false, [], "fifo0", "tmp0"⟩

/-! ## Talkgroup extraction and display filter (src/sdr_gui.py
lines 107-120, 625-631, 2167-2173)

`extract_talkgroup_ids` scans a line with the regex
`\b(?:TGID|TG|talkgroup|group)\s*[:=]?\s*(0x[0-9A-Fa-f]+|\d+)\b`
(case-insensitive, non-overlapping, leftmost matches) and converts each
captured group with `int(raw, 0)` (hex for `0x...`, decimal otherwise,
rejecting decimal literals with leading zeros except all-zero strings),
keeping the raw text on `ValueError`.  The scanner below replicates the
regex for this one pattern, including the alternation order, the word
boundaries, and the optional `:`/`=` separator; greedy whitespace and
digit runs need no general backtracking here because shortening a digit
run always leaves word characters on both sides of the required `\b`. -/

/-- Word characters for the regex `\b` boundary. -/
def isWordChar (c : Char) : Bool := c.isAlphanum || c == '_'

/-- Hex digit test for the `[0-9A-Fa-f]` character class. -/
def isHexDigitChar (c : Char) : Bool :=
  c.isDigit || ('a' ≤ c && c ≤ 'f') || ('A' ≤ c && c ≤ 'F')

/-- Case-insensitive keyword prefix test. -/
def matchesCI (kw : String) (cs : List Char) : Bool :=
  kw.toList.length ≤ cs.length &&
    (kw.toList.zip cs).all (fun pc => pc.1.toLower == pc.2.toLower)

/-- Matches `(0x[0-9A-Fa-f]+|\d+)\b` at a position, returning the raw
captured text and the remaining input. -/
def matchNumber (cs : List Char) : Option (List Char × List Char) :=
  match cs with
  | c0 :: c1 :: rest =>
    if c0 == '0' && (c1 == 'x' || c1 == 'X') then
      let hx := rest.takeWhile isHexDigitChar
      let after := rest.dropWhile isHexDigitChar
      if !hx.isEmpty && (after.headD ' ' |> isWordChar) == false then
        some (c0 :: c1 :: hx, after)
      else
        none
    else
      let ds := cs.takeWhile Char.isDigit
      let after := cs.dropWhile Char.isDigit
      if !ds.isEmpty && (after.headD ' ' |> isWordChar) == false then
        some (ds, after)
      else none
  | _ =>
    let ds := cs.takeWhile Char.isDigit
    let after := cs.dropWhile Char.isDigit
    if !ds.isEmpty && (after.headD ' ' |> isWordChar) == false then
      some (ds, after)
    else none

/-- Remainders reachable by `\s*[:=]?\s*`, in regex backtracking order
(greedy whitespace, separator taken before skipped). -/
def sepRemainders (cs : List Char) : List (List Char) :=
  let a := cs.dropWhile Char.isWhitespace
  match a with
  | c :: b =>
    if c == ':' || c == '=' then [b.dropWhile Char.isWhitespace, a] else [a]
  | [] => [a]

/-- Tries one keyword alternative followed by separator and number. -/
def tryKeyword (kw : String) (cs : List Char) : Option (List Char × List Char) :=
  if matchesCI kw cs then
    (sepRemainders (cs.drop kw.toList.length)).firstM matchNumber
  else none

/-- Tries the regex alternation at one position, in the source order
`TGID | TG | talkgroup | group`. -/
def matchAt (cs : List Char) : Option (List Char × List Char) :=
  (tryKeyword "TGID" cs).orElse fun _ =>
  (tryKeyword "TG" cs).orElse fun _ =>
  (tryKeyword "talkgroup" cs).orElse fun _ =>
  tryKeyword "group" cs

/-- Non-overlapping left-to-right scan (`re.finditer`), tracking the
previous character for the leading `\b`.  Fuel bounds the recursion; each
step consumes at least one character. -/
def scanIds : Nat → Option Char → List Char → List (List Char)
  | 0, _, _ => []
  | _, _, [] => []
  | fuel + 1, prev, c :: rest =>
    let boundary := match prev with
      | none => true
      | some p => !(isWordChar p)
    match (if boundary then matchAt (c :: rest) else none) with
    | some (raw, after) => raw :: scanIds fuel (some (raw.getLastD '0')) after
    | none => scanIds fuel (some c) rest

/-- Python `int(raw, 0)` on the two raw shapes the regex can capture:
`0x...` parses as hex; a decimal literal with a leading zero is invalid
unless the string is all zeros. -/
def pyIntBase0 (raw : List Char) : Option Nat :=
  match raw with
  | '0' :: x :: rest =>
    if x == 'x' || x == 'X' then
      some (rest.foldl (fun a c =>
        a * 16 + (if c.isDigit then c.toNat - 48
          else if c.toLower == 'a' then 10 else if c.toLower == 'b' then 11
          else if c.toLower == 'c' then 12 else if c.toLower == 'd' then 13
          else if c.toLower == 'e' then 14 else 15)) 0)
    else if (('0' :: x :: rest).all (fun c => c == '0')) then some 0
    else none
  | ds => some (digitsVal ds)

/-- `extract_talkgroup_ids`: scan, then normalize each capture through
`int(raw, 0)`, keeping the raw text when the conversion fails. -/
def extractTalkgroupIds (line : String) : List String :=
  (scanIds (line.toList.length + 1) none line.toList).map (fun raw =>
    match pyIntBase0 raw with
    | some v => toString v
    | none => String.mk raw)

/-- `_line_matches_selected_talkgroup` (identical in `MainWindow` and
`CLIRunner`): an empty selection passes everything; otherwise the line
passes iff some extracted id is selected. -/
def lineMatchesSelectedTalkgroup (selected : List String) (line : String) :
    Bool :=
  if selected.isEmpty then true
  else
    let ids := extractTalkgroupIds line
    if ids.isEmpty then false
    else ids.any (fun i => selected.contains i)

/-! ## Theorems -/

/-- The reconstructed frequency array has one entry per requested index. -/
theorem mkFreqs_length (f0 binHz : ℚ) (n : Nat) :
    (mkFreqs f0 binHz n).length = n := by
  rw [mkFreqs, List.length_map, List.length_range]

/-- Each entry of the reconstructed frequency array is `f0 + binHz * i`. -/
theorem mkFreqs_getD (f0 binHz : ℚ) (n i : Nat) (hi : i < n) :
    (mkFreqs f0 binHz n).getD i 0 = f0 + binHz * (i : ℚ) := by
  have hlen : i < (mkFreqs f0 binHz n).length := by rwa [mkFreqs_length]
  rw [List.getD_eq_getElem _ _ hlen]
  simp only [mkFreqs, List.getElem_map, List.getElem_range]

/-- Invariant of the `argmaxAux` scan: starting from a valid best index for
the prefix, the result indexes a maximal element of the whole list. -/
theorem argmaxAux_spec (rest : List ℚ) : ∀ (pre : List ℚ) (bi : Nat) (bv : ℚ),
    bi < pre.length → (pre ++ rest).getD bi 0 = bv →
    (∀ j, j < pre.length → (pre ++ rest).getD j 0 ≤ bv) →
    argmaxAux rest bi bv pre.length < (pre ++ rest).length ∧
    ∀ j, j < (pre ++ rest).length →
      (pre ++ rest).getD j 0 ≤ (pre ++ rest).getD (argmaxAux rest bi bv pre.length) 0 := by
  induction rest with
  | nil =>
    intro pre bi bv hbi hbv hmax
    constructor
    · simpa [argmaxAux] using hbi
    · intro j hj
      rw [argmaxAux, hbv]
      exact hmax j (by simpa using hj)
  | cons p rs ih =>
    intro pre bi bv hbi hbv hmax
    have hassoc : pre ++ p :: rs = (pre ++ [p]) ++ rs := by simp
    have hlen : (pre ++ [p]).length = pre.length + 1 := by simp
    have hjunction : ((pre ++ [p]) ++ rs).getD pre.length 0 = p := by
      rw [List.getD_append _ _ _ _ (by rw [hlen]; omega)]
      rw [List.getD_append_right _ _ _ _ (le_refl _)]
      simp
    by_cases hlt : bv < p
    · have hstep : argmaxAux (p :: rs) bi bv pre.length
          = argmaxAux rs pre.length p (pre.length + 1) := by
        simp [argmaxAux, hlt]
      have hres := ih (pre ++ [p]) pre.length p (by rw [hlen]; omega)
        hjunction
        (by
          intro j hj
          rw [hlen] at hj
          rcases Nat.lt_succ_iff_lt_or_eq.mp hj with hj2 | hj2
          · calc ((pre ++ [p]) ++ rs).getD j 0
                = (pre ++ p :: rs).getD j 0 := by rw [hassoc]
              _ ≤ bv := hmax j hj2
              _ ≤ p := le_of_lt hlt
          · subst hj2
            exact le_of_eq hjunction)
      rw [hstep, hassoc, ← hlen]
      exact hres
    · have hstep : argmaxAux (p :: rs) bi bv pre.length
          = argmaxAux rs bi bv (pre.length + 1) := by
        simp [argmaxAux, hlt]
      have hres := ih (pre ++ [p]) bi bv (by rw [hlen]; omega)
        (by
          rw [← hassoc]
          exact hbv)
        (by
          intro j hj
          rw [hlen] at hj
          rcases Nat.lt_succ_iff_lt_or_eq.mp hj with hj2 | hj2
          · calc ((pre ++ [p]) ++ rs).getD j 0
                = (pre ++ p :: rs).getD j 0 := by rw [hassoc]
              _ ≤ bv := hmax j hj2
          · subst hj2
            rw [hjunction]
            exact not_lt.mp hlt)
      rw [hstep, hassoc, ← hlen]
      exact hres

/-- The modelled `np.argmax` returns an in-range index of a maximal power
for any nonempty list. -/
theorem argmaxIdx_spec (ps : List ℚ) (h : ps ≠ []) :
    argmaxIdx ps < ps.length ∧
    ∀ j, j < ps.length → ps.getD j 0 ≤ ps.getD (argmaxIdx ps) 0 := by
  cases ps with
  | nil => exact absurd rfl h
  | cons p rest =>
    have hres := argmaxAux_spec rest [p] 0 p (by simp)
      (by rw [List.getD_append _ _ _ _ (by simp)]; simp)
      (by
        intro j hj
        have hj0 : j = 0 := by
          simp only [List.length_singleton] at hj
          omega
        subst hj0
        rw [List.getD_append _ _ _ _ (by simp)]
        simp)
    simpa [argmaxIdx] using hres

/-- Folding `max` never goes below the initial value. -/
theorem le_listMaxD_init (l : List ℤ) : ∀ d : ℤ, d ≤ listMaxD l d := by
  induction l with
  | nil => intro d; exact le_refl d
  | cons x xs ih =>
    intro d
    calc d ≤ max d x := le_max_left d x
      _ ≤ listMaxD xs (max d x) := ih (max d x)
      _ = listMaxD (x :: xs) d := rfl

/-- Every member of the list is below the folded maximum. -/
theorem le_listMaxD_of_mem (l : List ℤ) :
    ∀ (d x : ℤ), x ∈ l → x ≤ listMaxD l d := by
  induction l with
  | nil => intro d x hx; exact absurd hx (List.not_mem_nil x)
  | cons y ys ih =>
    intro d x hx
    rcases List.mem_cons.mp hx with h | h
    · subst h
      calc x ≤ max d x := le_max_right d x
        _ ≤ listMaxD ys (max d x) := le_listMaxD_init ys (max d x)
        _ = listMaxD (x :: ys) d := rfl
    · exact ih (max d y) x h

/-- The folded maximum is bounded by any common upper bound. -/
theorem listMaxD_le (l : List ℤ) :
    ∀ (d m : ℤ), d ≤ m → (∀ x ∈ l, x ≤ m) → listMaxD l d ≤ m := by
  induction l with
  | nil => intro d m hd _; exact hd
  | cons y ys ih =>
    intro d m hd hall
    refine ih (max d y) m (max_le hd (hall y (List.mem_cons_self y ys))) ?_
    intro x hx
    exact hall x (List.mem_cons_of_mem y hx)

/-- The folded maximum is the initial value or a member of the list. -/
theorem listMaxD_eq_init_or_mem (l : List ℤ) :
    ∀ d : ℤ, listMaxD l d = d ∨ listMaxD l d ∈ l := by
  induction l with
  | nil => intro d; exact Or.inl rfl
  | cons y ys ih =>
    intro d
    rcases ih (max d y) with h | h
    · rcases max_choice d y with hm | hm
      · exact Or.inl (by rw [show listMaxD (y :: ys) d = listMaxD ys (max d y) from rfl, h, hm])
      · refine Or.inr (List.mem_cons.mpr (Or.inl ?_))
        rw [show listMaxD (y :: ys) d = listMaxD ys (max d y) from rfl, h, hm]
    · exact Or.inr (List.mem_cons_of_mem y h)

/-- The true absolute peak is nonnegative. -/
theorem maxAbs_nonneg (l : List ℤ) : 0 ≤ maxAbs l :=
  le_listMaxD_init _ 0

/-- Every sample is bounded in magnitude by the true absolute peak. -/
theorem abs_le_maxAbs (l : List ℤ) (s : ℤ) (hs : s ∈ l) : |s| ≤ maxAbs l :=
  le_listMaxD_of_mem _ 0 |s| (List.mem_map_of_mem _ hs)

/-- A positive absolute peak is attained by some sample. -/
theorem maxAbs_attained (l : List ℤ) (h : 0 < maxAbs l) :
    ∃ s ∈ l, |s| = maxAbs l := by
  rcases listMaxD_eq_init_or_mem (l.map fun s => |s|) 0 with h0 | hm
  · rw [maxAbs] at h
    omega
  · rcases List.mem_map.mp hm with ⟨s, hs, hval⟩
    exact ⟨s, hs, hval⟩

/-- A zero absolute peak means all samples are zero. -/
theorem maxAbs_eq_zero_all (l : List ℤ) (h : maxAbs l = 0) :
    ∀ s ∈ l, s = 0 := by
  intro s hs
  have hle := abs_le_maxAbs l s hs
  rw [h] at hle
  exact abs_eq_zero.mp (le_antisymm hle (abs_nonneg s))

/-- The wrapping int16 absolute value agrees with the true one away from
the minimal value. -/
theorem npAbs16_eq_abs (s : ℤ) (h : -32767 ≤ s) : npAbs16 s = |s| := by
  rw [npAbs16, if_neg (by omega)]

/-- On chunks without the minimal sample, the source's
`np.max(np.abs(audio))` is the true absolute peak. -/
theorem npMaxAbs16_eq_maxAbs (l : List ℤ) (hl : l ≠ [])
    (hr : ∀ s ∈ l, -32767 ≤ s) : npMaxAbs16 l = maxAbs l := by
  cases l with
  | nil => exact absurd rfl hl
  | cons s rest =>
    have hmap : rest.map npAbs16 = rest.map (fun x => |x|) :=
      List.map_congr_left (fun x hx =>
        npAbs16_eq_abs x (hr x (List.mem_cons_of_mem s hx)))
    have hs : npAbs16 s = |s| := npAbs16_eq_abs s (hr s (List.mem_cons_self s rest))
    rw [npMaxAbs16, hmap, hs, maxAbs]
    show listMaxD (rest.map fun x => |x|) |s|
      = listMaxD (rest.map fun x => |x|) (max 0 |s|)
    rw [max_eq_right (abs_nonneg s)]

/-- An all-zero chunk has wrapping peak 0. -/
theorem npMaxAbs16_all_zero (l : List ℤ) (h : ∀ s ∈ l, s = 0) :
    npMaxAbs16 l ≤ 0 := by
  cases l with
  | nil => rw [npMaxAbs16]
  | cons s rest =>
    have hs : npAbs16 s = 0 := by
      rw [h s (List.mem_cons_self s rest)]
      rfl
    rw [npMaxAbs16, hs]
    refine listMaxD_le _ 0 0 (le_refl 0) ?_
    intro x hx
    rcases List.mem_map.mp hx with ⟨y, hy, hval⟩
    rw [h y (List.mem_cons_of_mem s hy)] at hval
    rw [← hval]
    decide

/-- Truncation toward zero of an integer value is the integer itself. -/
theorem truncQ_intCast (n : ℤ) : truncQ ((n : ℚ)) = n := by
  rw [truncQ]
  split
  · exact Int.floor_intCast n
  · exact Int.ceil_intCast n

/-- Truncation toward zero stays within a symmetric integer bound. -/
theorem truncQ_bounds (q : ℚ) (R : ℤ) (hR : 0 ≤ R) (h : |q| ≤ (R : ℚ)) :
    -R ≤ truncQ q ∧ truncQ q ≤ R := by
  rcases abs_le.mp h with ⟨hlo, hhi⟩
  rw [truncQ]
  split
  · rename_i hq
    constructor
    · have h0 : (0 : ℤ) ≤ ⌊q⌋ := Int.floor_nonneg.mpr hq
      omega
    · calc ⌊q⌋ ≤ ⌊(R : ℚ)⌋ := Int.floor_le_floor hhi
        _ = R := Int.floor_intCast R
  · rename_i hq
    constructor
    · calc -R = ⌈((-R : ℤ) : ℚ)⌉ := by rw [Int.ceil_intCast]
        _ ≤ ⌈q⌉ := Int.ceil_le_ceil (by push_cast; exact hlo)
    · have h0 : ⌈q⌉ ≤ (0 : ℤ) :=
        Int.ceil_le.mpr (by exact_mod_cast le_of_lt (not_le.mp hq))
      omega

/-- Wrap-around is the identity on the int16 range. -/
theorem wrap16_eq_self (n : ℤ) (h1 : -32768 ≤ n) (h2 : n ≤ 32767) :
    wrap16 n = n := by
  rw [wrap16, Int.emod_eq_of_lt (by omega) (by omega)]
  omega

/-- Folding `max` over a constant list. -/
theorem listMaxD_replicate (n : Nat) (a : ℤ) : ∀ d : ℤ,
    listMaxD (List.replicate n a) d = if n = 0 then d else max d a := by
  induction n with
  | zero => intro d; rfl
  | succ m ih =>
    intro d
    rw [List.replicate_succ]
    show listMaxD (List.replicate m a) (max d a) = if m + 1 = 0 then d else max d a
    rw [ih (max d a), if_neg (Nat.succ_ne_zero m)]
    split
    · rfl
    · rw [max_assoc, max_self]

/-- The all-minimal chunk value of the source's peak computation. -/
theorem c3Chunk_peaks :
    maxAbs c3Chunk = 32768 ∧ npMaxAbs16 c3Chunk = -32768 := by
  constructor
  · rw [maxAbs, c3Chunk, List.map_replicate, listMaxD_replicate]
    decide
  · rw [c3Chunk, show (1024 : Nat) = 1023 + 1 from rfl, List.replicate_succ,
      npMaxAbs16, List.map_replicate, listMaxD_replicate]
    decide

/-- C3 counterexample: a 2048-byte chunk of 1024 samples, all -32768, has
true absolute peak 32768 > 0, yet because `np.abs` wraps, the computed
level is -32768, the AGC branch is skipped, and the chunk passes through
with output peak 32768 instead of the reference level 10000. -/
theorem agc_wraparound_cex :
    0 < maxAbs c3Chunk ∧
    maxAbs c3Chunk = 32768 ∧
    npMaxAbs16 c3Chunk = -32768 ∧
    agcChunk 10000 c3Chunk = c3Chunk ∧
    maxAbs (agcChunk 10000 c3Chunk) = 32768 := by
  have hpk := c3Chunk_peaks
  have hpass : agcChunk 10000 c3Chunk = c3Chunk := by
    simp only [agcChunk, hpk.2]
    rw [if_neg (by omega)]
  exact ⟨by rw [hpk.1]; omega, hpk.1, hpk.2, hpass, by rw [hpass]; exact hpk.1⟩

/-- C3 (amended: samples restricted to [-32767, 32767], where the
wrapping `np.abs` agrees with the true absolute value, and the reference
level restricted to (0, 32767], which covers the program's AGC slider
range 5000-20000).  For a chunk with absolute peak `L > 0`, every output
sample is the int16 truncation of `s * R / L`, all outputs already lie in
[-R, R] (so clamping to the int16 range is a no-op), and the output peak
equals `R` exactly; a chunk with peak 0 passes through unchanged with no
division performed. -/
theorem agc_normalizes_peak :
    (∀ (R : ℤ) (audio : List ℤ), 0 < R → R ≤ 32767 →
      (∀ s ∈ audio, -32767 ≤ s ∧ s ≤ 32767) → 0 < maxAbs audio →
      agcChunk R audio
        = audio.map (fun (s : ℤ) =>
            toInt16 ((s : ℚ) * ((R : ℚ) / (((maxAbs audio : ℤ)) : ℚ)))) ∧
      (∀ t ∈ agcChunk R audio, -R ≤ t ∧ t ≤ R) ∧
      maxAbs (agcChunk R audio) = R) ∧
    (∀ (R : ℤ) (audio : List ℤ), maxAbs audio = 0 → agcChunk R audio = audio) := by
  constructor
  · intro R audio hR hR2 hrange hL
    have hne : audio ≠ [] := by
      intro h
      rw [h] at hL
      exact absurd hL (by decide)
    have hlevel : npMaxAbs16 audio = maxAbs audio :=
      npMaxAbs16_eq_maxAbs audio hne (fun s hs => (hrange s hs).1)
    set L : ℤ := maxAbs audio with hLdef
    have hLpos : (0 : ℚ) < (L : ℚ) := by exact_mod_cast hL
    have hmap : agcChunk R audio
        = audio.map (fun (s : ℤ) => toInt16 ((s : ℚ) * ((R : ℚ) / (L : ℚ)))) := by
      simp only [agcChunk, hlevel]
      rw [if_pos hL]
    have hbound : ∀ s ∈ audio,
        -R ≤ toInt16 ((s : ℚ) * ((R : ℚ) / (L : ℚ))) ∧
        toInt16 ((s : ℚ) * ((R : ℚ) / (L : ℚ))) ≤ R := by
      intro s hs
      have habs : |s| ≤ L := abs_le_maxAbs audio s hs
      have hfrac : (0 : ℚ) ≤ (R : ℚ) / (L : ℚ) := by positivity
      have hcast : |(s : ℚ)| ≤ (L : ℚ) := by
        rw [← Int.cast_abs]
        exact_mod_cast habs
      have hq : |(s : ℚ) * ((R : ℚ) / (L : ℚ))| ≤ (R : ℚ) := by
        calc |(s : ℚ) * ((R : ℚ) / (L : ℚ))|
            = |(s : ℚ)| * ((R : ℚ) / (L : ℚ)) := by
              rw [abs_mul, abs_of_nonneg hfrac]
          _ ≤ (L : ℚ) * ((R : ℚ) / (L : ℚ)) :=
              mul_le_mul_of_nonneg_right hcast hfrac
          _ = (R : ℚ) := by
              field_simp
      have htr := truncQ_bounds _ R (le_of_lt hR) hq
      rw [toInt16, wrap16_eq_self _ (by omega) (by omega)]
      exact htr
    refine ⟨hmap, ?_, ?_⟩
    · intro t ht
      rw [hmap] at ht
      rcases List.mem_map.mp ht with ⟨s, hs, hval⟩
      rw [← hval]
      exact hbound s hs
    · rcases maxAbs_attained audio hL with ⟨s0, hs0, habs0⟩
      have hout0 : toInt16 ((s0 : ℚ) * ((R : ℚ) / (L : ℚ))) = R ∨
          toInt16 ((s0 : ℚ) * ((R : ℚ) / (L : ℚ))) = -R := by
        rcases (abs_eq (by omega : (0 : ℤ) ≤ L)).mp habs0 with h | h
        · left
          have hval : (s0 : ℚ) * ((R : ℚ) / (L : ℚ)) = ((R : ℤ) : ℚ) := by
            rw [h]
            field_simp
          rw [hval, toInt16, truncQ_intCast,
            wrap16_eq_self _ (by omega) (by omega)]
        · right
          have hval : (s0 : ℚ) * ((R : ℚ) / (L : ℚ)) = ((-R : ℤ) : ℚ) := by
            rw [h]
            push_cast
            field_simp
            ring
          rw [hval, toInt16, truncQ_intCast,
            wrap16_eq_self _ (by omega) (by omega)]
      have hmem : toInt16 ((s0 : ℚ) * ((R : ℚ) / (L : ℚ))) ∈ agcChunk R audio := by
        rw [hmap]
        exact List.mem_map_of_mem _ hs0
      have hRin : R ≤ maxAbs (agcChunk R audio) := by
        have habs2 : |toInt16 ((s0 : ℚ) * ((R : ℚ) / (L : ℚ)))| = R := by
          rcases hout0 with h | h <;> rw [h]
          · exact abs_of_pos hR
          · rw [abs_neg]
            exact abs_of_pos hR
        calc R = |toInt16 ((s0 : ℚ) * ((R : ℚ) / (L : ℚ)))| := habs2.symm
          _ ≤ maxAbs (agcChunk R audio) := abs_le_maxAbs _ _ hmem
      have hRout : maxAbs (agcChunk R audio) ≤ R := by
        rw [maxAbs]
        refine listMaxD_le _ 0 R (le_of_lt hR) ?_
        intro x hx
        rcases List.mem_map.mp hx with ⟨t, ht, hval⟩
        rw [hmap] at ht
        rcases List.mem_map.mp ht with ⟨s, hs, hval2⟩
        rw [← hval, ← hval2]
        rcases hbound s hs with ⟨hlo, hhi⟩
        rw [abs_le]
        exact ⟨hlo, hhi⟩
      omega
  · intro R audio h
    have hz := maxAbs_eq_zero_all audio h
    have hlev := npMaxAbs16_all_zero audio hz
    simp only [agcChunk]
    rw [if_neg (by omega)]

/-- C3 witness: on the chunk [100, -50] with reference 10000 the output
peak is exactly 10000, and the all-zero chunk passes through unchanged. -/
theorem agc_normalizes_peak_witness :
    maxAbs (agcChunk 10000 [100, -50]) = 10000 ∧
    agcChunk 10000 [0, 0] = [0, 0] := by
  refine ⟨(agc_normalizes_peak.1 10000 [100, -50] (by decide) (by decide)
    (by decide) (by decide)).2.2, agc_normalizes_peak.2 10000 [0, 0] (by decide)⟩

/-- C6.  RecordingSession lifecycle: chunks arriving within the 2-second
silence timeout keep the one open session open under its original name (a
repeated activity open only refreshes the last-activity timestamp); the
first chunk processed more than 2 s after the last refresh that carries
no new activity closes the session (the timeout check runs on every chunk
write); a subsequent activity chunk opens a new session named by its own
(later, hence distinct) timestamp. -/
theorem recording_session_lifecycle :
    (∀ (s : RecState) (n t : ℚ) (a : Bool), s.recordFile = some n →
      t - s.recordLast ≤ 2 →
      (processChunk s t a).recordFile = some n ∧
      (processChunk s t a).recordLast = (if a then t else s.recordLast)) ∧
    (∀ (s : RecState) (n : ℚ) (chunks : List (ℚ × Bool)),
      s.recordFile = some n → burstOk s chunks = true →
      (processChunks s chunks).recordFile = some n) ∧
    (∀ (s : RecState) (n t : ℚ), s.recordFile = some n →
      2 < t - s.recordLast → (processChunk s t false).recordFile = none) ∧
    (∀ (s : RecState) (t : ℚ), s.recordFile = none →
      (processChunk s t true).recordFile = some t ∧
      (processChunk s t true).recordLast = t) ∧
    (∀ (s : RecState) (n t : ℚ), s.recordFile = none → n ≠ t →
      (processChunk s t true).recordFile ≠ some n) := by
  have hstep : ∀ (s : RecState) (n t : ℚ) (a : Bool), s.recordFile = some n →
      t - s.recordLast ≤ 2 →
      (processChunk s t a).recordFile = some n ∧
      (processChunk s t a).recordLast = (if a then t else s.recordLast) := by
    intro s n t a hopen hgap
    cases a
    · rw [processChunk, if_neg (by simp), writeRecording, hopen]
      simp only [hopen]
      rw [if_neg (by exact not_lt.mpr hgap)]
      exact ⟨hopen, rfl⟩
    · rw [processChunk, if_pos rfl, startRecording]
      simp only [hopen]
      rw [writeRecording]
      simp only [hopen]
      rw [if_neg (by norm_num)]
      exact ⟨rfl, rfl⟩
  have hopen1 : ∀ (s : RecState) (t : ℚ), s.recordFile = none →
      (processChunk s t true).recordFile = some t ∧
      (processChunk s t true).recordLast = t := by
    intro s t hclosed
    rw [processChunk, if_pos rfl, startRecording]
    simp only [hclosed]
    rw [writeRecording]
    simp only
    rw [if_neg (by norm_num)]
    exact ⟨rfl, rfl⟩
  refine ⟨hstep, ?_, ?_, hopen1, ?_⟩
  · intro s n chunks
    induction chunks generalizing s with
    | nil => intro hopen _; exact hopen
    | cons c rest ih =>
      intro hopen hburst
      rcases c with ⟨t, a⟩
      rw [burstOk, Bool.and_eq_true, decide_eq_true_eq] at hburst
      rw [processChunks]
      exact ih (processChunk s t a) (hstep s n t a hopen hburst.1).1 hburst.2
  · intro s n t hopen hgap
    rw [processChunk, if_neg (by simp), writeRecording]
    simp only [hopen]
    rw [if_pos hgap]
  · intro s n t hclosed hne
    rw [(hopen1 s t hclosed).1]
    intro hcontra
    exact hne (Option.some_inj.mp hcontra).symm

/-- C6 witness: from an open session named 0, a burst at times 1, 2, 3
(with a repeated activity open at 2) keeps session 0 open; a silent chunk
at time 6 closes it; a subsequent activity chunk at time 7 opens the
distinctly named session 7. -/
theorem recording_session_lifecycle_witness :
    (processChunks ⟨some 0, 0⟩ [(1, true), (2, true), (3, false)]).recordFile
      = some 0 ∧
    (processChunk ⟨some 0, 2⟩ 6 false).recordFile = none ∧
    (processChunk ⟨none, 2⟩ 7 true).recordFile = some 7 ∧
    (processChunk ⟨none, 2⟩ 7 true).recordFile ≠ some 0 := by
  refine ⟨recording_session_lifecycle.2.1 ⟨some 0, 0⟩ 0
      [(1, true), (2, true), (3, false)] rfl (by with_unfolding_all decide),
    recording_session_lifecycle.2.2.1 ⟨some 0, 2⟩ 0 6 rfl
      (by with_unfolding_all decide),
    (recording_session_lifecycle.2.2.2.1 ⟨none, 2⟩ 7 rfl).1,
    recording_session_lifecycle.2.2.2.2 ⟨none, 2⟩ 0 7 rfl
      (by with_unfolding_all decide)⟩

/-- C9.  ScanEngine start/stop idempotence: `start` while the worker
thread is alive changes nothing and spawns nothing; `stop` on an already
stopped scanner changes nothing and performs no action; `stop` always
clears the running flag, emits a terminate exactly when a process handle
is live, joins exactly when a thread object exists, and clears both
handles, so a second `stop` is a no-op. -/
theorem scanner_start_stop_idempotent :
    (∀ s : ScannerState, s.thread = some true → scannerStart s = (s, [])) ∧
    (∀ s : ScannerState, s.thread = none → s.hasProcess = false →
      s.running = false → scannerStop s = (s, [])) ∧
    (∀ s : ScannerState, (scannerStop s).1.running = false ∧
      (scannerStop s).1.thread = none ∧ (scannerStop s).1.hasProcess = false) ∧
    (∀ s : ScannerState, s.hasProcess = true →
      ScanAction.terminateProcess ∈ (scannerStop s).2) ∧
    (∀ (s : ScannerState) (b : Bool), s.thread = some b →
      ScanAction.joinThread ∈ (scannerStop s).2) ∧
    (∀ s : ScannerState, scannerStop (scannerStop s).1 = ((scannerStop s).1, [])) := by
  refine ⟨?_, ?_, ?_, ?_, ?_, ?_⟩
  · intro s h
    rw [scannerStart, h]
  · intro s ht hp hr
    rcases s with ⟨th, r, pr⟩
    simp only at ht hp hr
    subst ht; subst hp; subst hr
    rfl
  · intro s
    rcases s with ⟨th, r, pr⟩
    rw [scannerStop]
    cases pr <;> cases th <;> simp
  · intro s h
    rcases s with ⟨th, r, pr⟩
    simp only at h
    subst h
    rw [scannerStop]
    cases th <;> simp
  · intro s b h
    rcases s with ⟨th, r, pr⟩
    simp only at h
    subst h
    rw [scannerStop]
    cases pr <;> simp
  · intro s
    rcases s with ⟨th, r, pr⟩
    rw [scannerStop]
    cases pr <;> cases th <;> rfl

/-- C9 witness: starting a running scanner is a no-op; stopping a stopped
scanner is a no-op; stopping a running scanner with a live process
terminates it, joins the worker, and clears the state. -/
theorem scanner_start_stop_witness :
    scannerStart ⟨some true, true, true⟩ = (⟨some true, true, true⟩, []) ∧
    scannerStop ⟨none, false, false⟩ = (⟨none, false, false⟩, []) ∧
    (scannerStop ⟨some true, true, true⟩).1.running = false ∧
    ScanAction.terminateProcess ∈ (scannerStop ⟨some true, true, true⟩).2 ∧
    ScanAction.joinThread ∈ (scannerStop ⟨some true, true, true⟩).2 := by
  refine ⟨scanner_start_stop_idempotent.1 _ rfl,
    scanner_start_stop_idempotent.2.1 _ rfl rfl rfl,
    (scanner_start_stop_idempotent.2.2.1 _).1,
    scanner_start_stop_idempotent.2.2.2.1 _ rfl,
    scanner_start_stop_idempotent.2.2.2.2.1 _ true rfl⟩

/-- C1.  Mode gating: with the manual lock set, any number of scanner
peak events leaves the current frequency (and the lock) unchanged and
performs no player or decoder start; after switching back to Auto, one
peak event sets the current frequency and starts the audio player. -/
theorem mode_gating :
    (∀ (s : SelectorState) (fs : List ℚ), s.manualLock = true →
      (deliverPeaks s fs).1.currentFrequency = s.currentFrequency ∧
      (deliverPeaks s fs).1.manualLock = true ∧
      ∀ a ∈ (deliverPeaks s fs).2, isStartAction a = false) ∧
    (∀ (s : SelectorState) (f : ℚ),
      (updateFrequency (setManualLock s false).1 f).1.currentFrequency = some f ∧
      UiAction.playerStart f ∈ (updateFrequency (setManualLock s false).1 f).2) := by
  constructor
  · intro s fs
    induction fs generalizing s with
    | nil => intro h; exact ⟨rfl, h, by intro a ha; exact absurd ha (List.not_mem_nil a)⟩
    | cons f rest ih =>
      intro h
      have hone : updateFrequency s f
          = ({ s with freqHistory := f / 1000000 :: s.freqHistory },
             [UiAction.logLine "Automatische Frequenz ignoriert (Manuell aktiv)"]) := by
        rw [updateFrequency, if_pos h]
      have hrec := ih { s with freqHistory := f / 1000000 :: s.freqHistory } h
      rw [deliverPeaks, hone]
      refine ⟨hrec.1, hrec.2.1, ?_⟩
      intro a ha
      rcases List.mem_append.mp ha with hmem | hmem
      · rcases List.mem_singleton.mp hmem with rfl
        rfl
      · exact hrec.2.2 a hmem
  · intro s f
    rw [setManualLock]
    rw [updateFrequency]
    simp only
    rw [if_neg (by simp), setFrequencyAndProcess]
    constructor
    · rfl
    · simp

/-- C1 witness: with the lock held, two peak events leave the frequency
at 395 MHz and start nothing; after unlocking, a peak at 390 MHz is
applied and starts the audio player. -/
theorem mode_gating_witness :
    (deliverPeaks ⟨true, some 395000000, [], true⟩ [391000000, 392000000]).1.currentFrequency
      = some 395000000 ∧
    (∀ a ∈ (deliverPeaks ⟨true, some 395000000, [], true⟩ [391000000, 392000000]).2,
      isStartAction a = false) ∧
    (updateFrequency (setManualLock ⟨true, some 395000000, [], true⟩ false).1
      390000000).1.currentFrequency = some 390000000 ∧
    UiAction.playerStart 390000000
      ∈ (updateFrequency (setManualLock ⟨true, some 395000000, [], true⟩ false).1
          390000000).2 := by
  refine ⟨(mode_gating.1 ⟨true, some 395000000, [], true⟩ [391000000, 392000000] rfl).1,
    (mode_gating.1 ⟨true, some 395000000, [], true⟩ [391000000, 392000000] rfl).2.2,
    (mode_gating.2 ⟨true, some 395000000, [], true⟩ 390000000).1,
    (mode_gating.2 ⟨true, some 395000000, [], true⟩ 390000000).2⟩

/-- C2.  For every well-formed CSV sweep line (at least 6 comma-separated
fields whose fields at positions 2, 4 and 6.. parse as numbers, which is
what `parseFields` returning `some` means), the reconstructed frequency
array has the same length as the power-sample array, frequency `i` equals
the parsed start frequency (field 2) plus the parsed bin width (field 4)
times `i`, and consecutive reconstructed frequencies differ by exactly the
parsed bin width. -/
theorem sweep_reconstruction_correct (line : List Char) (fr : Frame)
    (f0 binHz : ℚ) (powers : List ℚ)
    (hp : parseFields (splitComma (trimChars line)) = some (f0, binHz, powers))
    (hf : parseSweepLine line = some fr) :
    fr.freqs.length = fr.powers.length ∧ fr.powers = powers ∧
    (∀ i, i < fr.freqs.length → fr.freqs.getD i 0 = f0 + binHz * (i : ℚ)) ∧
    (∀ i, i + 1 < fr.freqs.length →
      fr.freqs.getD (i + 1) 0 - fr.freqs.getD i 0 = binHz) := by
  have hfr : fr = mkFrame f0 binHz powers := by
    rw [parseSweepLine, hp] at hf
    exact (Option.some_inj.mp hf).symm
  subst hfr
  rw [mkFrame]
  refine ⟨by rw [mkFreqs_length], rfl, ?_, ?_⟩
  · intro i hi
    rw [mkFreqs_length] at hi
    exact mkFreqs_getD f0 binHz powers.length i hi
  · intro i hi
    rw [mkFreqs_length] at hi
    rw [mkFreqs_getD f0 binHz powers.length (i + 1) hi,
      mkFreqs_getD f0 binHz powers.length i (by omega)]
    push_cast
    ring

/-- C2 witness: the sweep line "a,b,5,c,2,d,1,4,3" parses to start
frequency 5, bin width 2 and three power samples, and the theorem's
conclusions hold at concrete indices. -/
theorem sweep_reconstruction_witness :
    (mkFrame 5 2 [1, 4, 3]).freqs.length = (mkFrame 5 2 [1, 4, 3]).powers.length ∧
    (mkFrame 5 2 [1, 4, 3]).freqs.getD 1 0 = 5 + 2 * ((1 : Nat) : ℚ) ∧
    (mkFrame 5 2 [1, 4, 3]).freqs.getD (0 + 1) 0
      - (mkFrame 5 2 [1, 4, 3]).freqs.getD 0 0 = 2 := by
  have hres := sweep_reconstruction_correct "a,b,5,c,2,d,1,4,3".toList
    (mkFrame 5 2 [1, 4, 3]) 5 2 [1, 4, 3]
    (by with_unfolding_all decide) (by with_unfolding_all decide)
  exact ⟨hres.1, hres.2.2.1 1 (by decide), hres.2.2.2 0 (by decide)⟩

/-- C7.  Malformed-line tolerance: a line with fewer than 6 comma-separated
fields, or whose fields at the fixed numeric positions (2 = start
frequency, 4 = bin width, 6.. = power samples) fail to parse as numbers,
is silently discarded: it emits no event, raises nothing, and processing
of the remaining lines continues. -/
theorem malformed_line_skipped :
    (∀ parts : List (List Char), parts.length < 6 → parseFields parts = none) ∧
    (∀ parts : List (List Char), parseFloatChars (parts.getD 2 []) = none →
      parseFields parts = none) ∧
    (∀ parts : List (List Char), parseFloatChars (parts.getD 4 []) = none →
      parseFields parts = none) ∧
    (∀ parts : List (List Char), (parts.drop 6).mapM parseFloatChars = none →
      parseFields parts = none) ∧
    (∀ line, parseSweepLine line = none → processLine line = ([], false)) ∧
    (∀ line rest, parseSweepLine line = none →
      processLines (line :: rest) = processLines rest) := by
  refine ⟨?_, ?_, ?_, ?_, ?_, ?_⟩
  · intro parts h
    simp [parseFields, h]
  · intro parts h
    rw [parseFields]
    split
    · rfl
    · rw [h]
  · intro parts h
    rw [parseFields]
    split
    · rfl
    · rw [h]
      cases parseFloatChars (parts.getD 2 []) <;> rfl
  · intro parts h
    rw [parseFields]
    split
    · rfl
    · rw [h]
      cases parseFloatChars (parts.getD 2 []) <;>
        cases parseFloatChars (parts.getD 4 []) <;> rfl
  · intro line h
    simp [processLine, h]
  · intro line rest h
    simp [processLines, processLine, h]

/-- C7 witness: a 2-field line and a line with a non-numeric start
frequency are both dropped without stopping the loop. -/
theorem malformed_line_skipped_witness :
    parseFields [['1'], ['2']] = none ∧
    parseFields [[], [], ['z'], [], ['2'], [], ['1']] = none ∧
    processLine "a,b".toList = ([], false) ∧
    processLines ["a,b".toList, "c".toList] = processLines ["c".toList] := by
  refine ⟨malformed_line_skipped.1 _ (by decide),
    malformed_line_skipped.2.1 _ (by decide),
    malformed_line_skipped.2.2.2.2.1 _ (by decide),
    malformed_line_skipped.2.2.2.2.2 _ _ (by decide)⟩

/-- C8 counterexample: the line "t,t,400000000,x,10000,x" is well-formed
in the sense of the claim (6 fields, numeric fields at positions 2 and 4,
vacuously numeric power fields), yet the scanner emits the frame and then
no `frequency_selected` event at all, because `np.argmax` of the empty
power array raises `ValueError` and kills the scan loop. -/
theorem peak_emission_empty_frame_cex :
    parseSweepLine "t,t,400000000,x,10000,x".toList = some ⟨[], []⟩ ∧
    processLine "t,t,400000000,x,10000,x".toList
      = ([ScanEvent.spectrumReady [] []], true) ∧
    countFreqSelected (processLine "t,t,400000000,x,10000,x".toList).1 = 0 := by
  refine ⟨by decide, by decide, by decide⟩

/-- C8 (amended: restricted to frames with at least one power sample).
For every sweep line parsing to a frame with a nonempty power array, the
scanner emits the full frame first and then exactly one
`frequency_selected` event, whose value is the reconstructed frequency at
an in-range index attaining the maximum power. -/
theorem peak_emission_correct (line : List Char) (fr : Frame)
    (hf : parseSweepLine line = some fr) (hne : fr.powers ≠ []) :
    processLine line =
      ([ScanEvent.spectrumReady fr.freqs fr.powers,
        ScanEvent.frequencySelected (fr.freqs.getD (argmaxIdx fr.powers) 0)],
       false) ∧
    argmaxIdx fr.powers < fr.powers.length ∧
    (∀ j, j < fr.powers.length →
      fr.powers.getD j 0 ≤ fr.powers.getD (argmaxIdx fr.powers) 0) ∧
    countFreqSelected (processLine line).1 = 1 := by
  have hev : processLine line =
      ([ScanEvent.spectrumReady fr.freqs fr.powers,
        ScanEvent.frequencySelected (fr.freqs.getD (argmaxIdx fr.powers) 0)],
       false) := by
    rw [processLine, hf]
    simp [List.isEmpty_iff, hne]
  have hmax := argmaxIdx_spec fr.powers hne
  refine ⟨hev, hmax.1, hmax.2, ?_⟩
  rw [hev]
  rfl

/-- C8 witness: on "a,b,5,c,2,d,1,4,3" the scanner emits the frame and one
peak event at index 1 (power 4, frequency 7). -/
theorem peak_emission_witness :
    processLine "a,b,5,c,2,d,1,4,3".toList =
      ([ScanEvent.spectrumReady (mkFrame 5 2 [1, 4, 3]).freqs [1, 4, 3],
        ScanEvent.frequencySelected
          ((mkFrame 5 2 [1, 4, 3]).freqs.getD (argmaxIdx [1, 4, 3]) 0)],
       false) ∧
    argmaxIdx ([1, 4, 3] : List ℚ) < 3 ∧
    countFreqSelected (processLine "a,b,5,c,2,d,1,4,3".toList).1 = 1 := by
  have hres := peak_emission_correct "a,b,5,c,2,d,1,4,3".toList
    (mkFrame 5 2 [1, 4, 3]) (by with_unfolding_all decide) (by decide)
  exact ⟨hres.1, hres.2.1, hres.2.2.2⟩

/-- C4 counterexample: with every executable missing (so `receiver1` is
not found), the run still allocates the audio channel (and logs its
path) before the check, spawns nothing, and removes the channel in the
terminal cleanup — refuting "the AudioChannel is only allocated when all
three executables are present". -/
theorem missing_executable_alloc_cex :
    c4Env.whichOk "receiver1" = false ∧
    DecEvent.outputLine ("Audioausgabe aktiviert, Pfad: " ++ "fifo0")
      ∈ (decoderRun c4Env).2 ∧
    DecEvent.audioRemoved "fifo0" ∈ (decoderRun c4Env).2 ∧
    countSpawned (decoderRun c4Env).2 = 0 := by
  refine ⟨rfl, by decide, by decide, by decide⟩

/-- C4 (amended: the AudioChannel is allocated unconditionally before the
executable check, not only in the all-present case; it is removed again
by the terminal cleanup).  The existence of all three stage executables
is checked before anything is spawned: if one is missing, a diagnostic
line for the first missing program is emitted and the pipeline emits
`finished` without spawning any process (and the already-allocated audio
channel is removed, leaving no path behind); spawn events can only occur
when all three executables are present. -/
theorem missing_executable_handling :
    (∀ (env : RunEnv) (m : String),
      stageProgs.find? (fun p => !(env.whichOk p)) = some m →
      (∀ p, DecEvent.spawned p ∉ (decoderRun env).2) ∧
      DecEvent.outputLine (m ++ " nicht im PATH gefunden") ∈ (decoderRun env).2 ∧
      DecEvent.finishedEmit ∈ (decoderRun env).2 ∧
      DecEvent.audioRemoved (allocPath env) ∈ (decoderRun env).2 ∧
      (decoderRun env).1.audioPath = none) ∧
    (∀ (env : RunEnv) (p : String), DecEvent.spawned p ∈ (decoderRun env).2 →
      ∀ q ∈ stageProgs, env.whichOk q = true) ∧
    (∀ env : RunEnv,
      DecEvent.outputLine ("Audioausgabe aktiviert, Pfad: " ++ allocPath env)
        ∈ (decoderRun env).2) := by
  refine ⟨?_, ?_, ?_⟩
  · intro env m hfind
    rw [decoderRun]
    simp only [hfind]
    refine ⟨?_, ?_, ?_, ?_, ?_⟩
    · intro p
      simp
    · simp
    · simp
    · simp
    · trivial
  · intro env p hmem q hq
    cases hfind : stageProgs.find? (fun r => !(env.whichOk r)) with
    | some m =>
      rw [decoderRun] at hmem
      simp only [hfind] at hmem
      simp at hmem
    | none =>
      have := List.find?_eq_none.mp hfind q hq
      simpa using this
  · intro env
    rw [decoderRun]
    cases hfind : stageProgs.find? (fun r => !(env.whichOk r)) <;> simp [hfind]

/-- C4 witness: in an environment where only `demod_float` is missing
(and named pipes exist), the check finds it, the diagnostic and finished
events fire, nothing is spawned, and the fifo path is removed. -/
theorem missing_executable_handling_witness :
    (∀ p, DecEvent.spawned p
      ∉ (decoderRun ⟨fun s => s ≠ "demod_float", true, fun _ => false, [],
          "f1", "t1"⟩).2) ∧
    DecEvent.outputLine ("demod_float" ++ " nicht im PATH gefunden")
      ∈ (decoderRun ⟨fun s => s ≠ "demod_float", true, fun _ => false, [],
          "f1", "t1"⟩).2 ∧
    DecEvent.audioRemoved (allocPath ⟨fun s => s ≠ "demod_float", true,
      fun _ => false, [], "f1", "t1"⟩)
      ∈ (decoderRun ⟨fun s => s ≠ "demod_float", true, fun _ => false, [],
          "f1", "t1"⟩).2 := by
  have hres := missing_executable_handling.1
    ⟨fun s => s ≠ "demod_float", true, fun _ => false, [], "f1", "t1"⟩
    "demod_float" (by decide)
  exact ⟨hres.1, hres.2.1, hres.2.2.2.1⟩

/-- C5.  AudioChannel cleanup: every terminating run (normal stage-3
EOF, missing executable, or an injected spawn exception) removes the
audio channel's backing path and resets the stored path and mode; an
external `stop()` from any mid-run state likewise resets the path and
removes the backing artifact if one was set. -/
theorem audio_channel_cleanup :
    (∀ env : RunEnv, (decoderRun env).1.audioPath = none ∧
      (decoderRun env).1.audioMode = none ∧
      DecEvent.audioRemoved (allocPath env) ∈ (decoderRun env).2) ∧
    (∀ s : DecState, (decoderStop s).1.audioPath = none ∧
      (decoderStop s).1.audioMode = none ∧
      ∀ p, s.audioPath = some p →
        DecEvent.audioRemoved p ∈ (decoderStop s).2) := by
  constructor
  · intro env
    rw [decoderRun]
    cases hfind : stageProgs.find? (fun r => !(env.whichOk r)) with
    | some m => exact ⟨rfl, rfl, by simp⟩
    | none => exact ⟨rfl, rfl, by simp⟩
  · intro s
    refine ⟨rfl, rfl, ?_⟩
    intro p hp
    rw [decoderStop, hp]
    simp

/-- C5 witness: a normal run to EOF in a pipe-capable environment with
all executables present ends with no stored path and a removal event for
the fifo; `stop` from a mid-run state with an open temp file removes it. -/
theorem audio_channel_cleanup_witness :
    (decoderRun ⟨fun _ => true, true, fun _ => false, ["line1"], "f2", "t2"⟩).1.audioPath
      = none ∧
    DecEvent.audioRemoved (allocPath ⟨fun _ => true, true, fun _ => false,
      ["line1"], "f2", "t2"⟩)
      ∈ (decoderRun ⟨fun _ => true, true, fun _ => false, ["line1"], "f2", "t2"⟩).2 ∧
    (decoderStop ⟨true, some "t3", some AudioMode.file⟩).1.audioPath = none ∧
    DecEvent.audioRemoved "t3"
      ∈ (decoderStop ⟨true, some "t3", some AudioMode.file⟩).2 := by
  refine ⟨(audio_channel_cleanup.1 _).1, (audio_channel_cleanup.1 _).2.2,
    (audio_channel_cleanup.2 _).1,
    (audio_channel_cleanup.2 ⟨true, some "t3", some AudioMode.file⟩).2.2 "t3" rfl⟩

/-- C10.  Talkgroup display filter: with no talkgroup selected every line
passes; with a nonempty selection a line passes iff some talkgroup id
extracted from it is selected — in particular a line yielding no ids is
always suppressed. -/
theorem talkgroup_filter_gate :
    (∀ line : String, lineMatchesSelectedTalkgroup [] line = true) ∧
    (∀ (sel : List String) (line : String), sel ≠ [] →
      (lineMatchesSelectedTalkgroup sel line = true ↔
        ∃ i ∈ extractTalkgroupIds line, i ∈ sel)) ∧
    (∀ (sel : List String) (line : String), sel ≠ [] →
      extractTalkgroupIds line = [] →
      lineMatchesSelectedTalkgroup sel line = false) := by
  refine ⟨?_, ?_, ?_⟩
  · intro line
    rfl
  · intro sel line hsel
    rw [lineMatchesSelectedTalkgroup,
      if_neg (by simp [List.isEmpty_iff, hsel])]
    by_cases hids : extractTalkgroupIds line = []
    · rw [hids]
      simp
    · rw [if_neg (by simp [List.isEmpty_iff, hids])]
      simp [List.any_eq_true]
  · intro sel line hsel hids
    rw [lineMatchesSelectedTalkgroup,
      if_neg (by simp [List.isEmpty_iff, hsel]), hids]
    rfl

/-- C10 witness: with "291" selected, a line carrying `TG 291` passes,
a line with no extractable id is suppressed, and with nothing selected
any line passes. -/
theorem talkgroup_filter_witness :
    lineMatchesSelectedTalkgroup [] "no ids here" = true ∧
    lineMatchesSelectedTalkgroup ["291"] "TG 291 active" = true ∧
    lineMatchesSelectedTalkgroup ["291"] "no ids here" = false := by
  refine ⟨talkgroup_filter_gate.1 "no ids here",
    (talkgroup_filter_gate.2.1 ["291"] "TG 291 active" (by decide)).mpr
      ⟨"291", by decide, by decide⟩,
    talkgroup_filter_gate.2.2 ["291"] "no ids here" (by decide) (by decide)⟩

end SdrGui
